import Mathlib

/-
Verification of the pg_pcst_fast PostgreSQL extension.

The repository ships a PostgreSQL wrapper (src/pcst_fast_pg.c) around a
Goemans-Williamson style PCST solver (src/pcst_fast.cc together with
src/pcst_fast_c_wrapper.cpp, named in the Makefile but not present in the
source tree).  The wrapper logic (pruning string parsing, SQL-row graph
building, node-id mapping, root-id mapping, error surfacing, result rows)
is embedded below directly from pcst_fast_pg.c.  The solver core
`pcst_solve` is modelled from the specification (spec.md), as indicated by
the doc comments starting with "Modelled from the spec".

Numbers are modelled with exact fractions (`QV`, pure integer arithmetic,
so that concrete runs reduce inside the kernel); floating-point inputs are
modelled by the type `FV`, which distinguishes finite values from NaN and
the two infinities so that input validation of non-finite values is
expressible.
-/

namespace PcstFast

/- ===================== Exact fractions ===================== -/

/-- Exact fraction `num / den`.  Every value built by the model keeps a
positive denominator.  Unlike Mathlib's ℚ the operations below perform no
gcd normalisation, so they reduce fully inside the kernel on concrete
inputs. -/
structure QV where
  num : Int
  den : Int
deriving DecidableEq, Repr

/-- The integer `n` as a fraction. -/
def QV.ofInt (n : Int) : QV := ⟨n, 1⟩

/-- Fraction addition (cross multiplication, no normalisation). -/
def QV.add (a b : QV) : QV := ⟨a.num * b.den + b.num * a.den, a.den * b.den⟩

/-- Fraction subtraction. -/
def QV.sub (a b : QV) : QV := ⟨a.num * b.den - b.num * a.den, a.den * b.den⟩

/-- Fraction multiplication. -/
def QV.mul (a b : QV) : QV := ⟨a.num * b.num, a.den * b.den⟩

/-- Fraction division, keeping the denominator positive; division by zero
gives zero (never exercised by the model: the divisor is an event rate of 1
or 2). -/
def QV.div (a b : QV) : QV :=
  if b.num = 0 then ⟨0, 1⟩
  else if b.num < 0 then ⟨-(a.num * b.den), -(a.den * b.num)⟩
  else ⟨a.num * b.den, a.den * b.num⟩

/-- Comparison `a ≤ b` (valid for positive denominators). -/
def QV.ble (a b : QV) : Bool := decide (a.num * b.den ≤ b.num * a.den)

/-- Comparison `a < b` (valid for positive denominators). -/
def QV.blt (a b : QV) : Bool := decide (a.num * b.den < b.num * a.den)

/-- Whether the fraction's value is negative (sign of `num * den`, correct
for any non-zero denominator). -/
def QV.isNeg (a : QV) : Bool := decide (a.num * a.den < 0)

/-- Sign normalisation: make the denominator non-negative. -/
def QV.norm (a : QV) : QV := if a.den < 0 then ⟨-a.num, -a.den⟩ else a

/-- List sum of fractions. -/
def qsum (l : List QV) : QV := l.foldl QV.add (QV.ofInt 0)

/- ===================== Component (union-find) machinery ===================== -/

/-- One union step on a component labelling: every node labelled like `e.2`
is relabelled with the label of `e.1`. -/
def mergeFn (f : Nat → Nat) (e : Nat × Nat) : Nat → Nat :=
  fun x => if f x = f e.2 then f e.1 else f x

/-- Fold a list of undirected edges into a component labelling, starting
from the labelling `f`. -/
def dsuFrom (f : Nat → Nat) (es : List (Nat × Nat)) : Nat → Nat :=
  es.foldl mergeFn f

/-- Component labelling generated by an edge list from the discrete
labelling (each node its own component). -/
def runDSU (es : List (Nat × Nat)) : Nat → Nat :=
  dsuFrom (fun x => x) es

/-- Decidable connectivity: two nodes are connected by the edge list iff
they receive the same component label. -/
def connB (es : List (Nat × Nat)) (x y : Nat) : Bool :=
  runDSU es x == runDSU es y

/-- Adjacency of two nodes through an (undirected) edge of the list. -/
def adjIn (es : List (Nat × Nat)) (x y : Nat) : Prop :=
  (x, y) ∈ es ∨ (y, x) ∈ es

/-- Connectivity as the reflexive-transitive closure of adjacency. -/
def ConnectedIn (es : List (Nat × Nat)) (x y : Nat) : Prop :=
  Relation.ReflTransGen (adjIn es) x y

/-- Forest check: scanning the edges front to back, every edge must join two
components that the previous edges had not yet connected.  This is the
standard incremental characterisation of an acyclic edge set. -/
def acyclicAux (f : Nat → Nat) : List (Nat × Nat) → Bool
  | [] => true
  | e :: es => (f e.1 != f e.2) && acyclicAux (mergeFn f e) es

/-- An edge list is a forest iff every edge, in scan order, joins two
previously disconnected components. -/
def acyclicEdges (es : List (Nat × Nat)) : Bool :=
  acyclicAux (fun x => x) es

/-- Labelling `g` is coarser than labelling `f`: `g` identifies at least
everything `f` identifies. -/
def Coarser (g f : Nat → Nat) : Prop :=
  ∀ x y, f x = f y → g x = g y

/- ===================== Input model and validation ===================== -/

/-- Model of an IEEE double input value: finite (with its exact fractional
value), NaN, or an infinity. -/
inductive FV where
  | fin (q : QV)
  | nan
  | posInf
  | negInf
deriving DecidableEq, Repr

/-- Finiteness test of a modelled double. -/
def FV.isFinite : FV → Bool
  | .fin _ => true
  | _ => false

/-- Fraction value of a modelled double (0 for non-finite values; only used
after validation has ruled those out). -/
def FV.toQ : FV → QV
  | .fin q => q.norm
  | _ => QV.ofInt 0

/-- Structured error kinds of the solver, following the spec's error
taxonomy (InvalidInput subkinds and AlgorithmFailure). -/
inductive ErrorKind where
  | negativeCost (i : Nat)
  | negativePrize (i : Nat)
  | nonFinite (i : Nat)
  | rootOutOfRange (r : Int)
  | rootConflictsWithClusters
  | edgeEndpointOutOfRange (i : Nat)
  | algorithmFailure
deriving DecidableEq, Repr

/-- Raw input of the solver core, as handed over by the C wrapper: edges
with endpoints (C ints) and cost, the prize array (its length is the number
of nodes, as in pcst_fast_pg.c line 87), the root (-1 for none), the target
number of active clusters and the pruning method (0 none, 1 simple, 2 gw,
3 strong). -/
structure PcstInput where
  edges : List (Int × Int × FV)
  prizes : List FV
  root : Int
  target : Nat
  pruning : Nat
deriving DecidableEq, Repr

/-- Validated input: endpoints are node indices below `n`, costs and prizes
are the extracted non-negative fractions, the root is decoded. -/
structure ValidInput where
  n : Nat
  edges : List (Nat × Nat)
  costs : List QV
  prizes : List QV
  root : Option Nat
  target : Nat
  pruning : Nat
deriving DecidableEq, Repr

/-- Modelled from the spec: scan of the cost values, rejecting the first
non-finite (`NonFinite`) or negative (`NegativeCost`) cost.  The core
sources (pcst_fast.cc / pcst_fast_c_wrapper.cpp) are not in the tree; the
spec requires "Invalid input (negative costs, prizes, out-of-range root,
indices outside [0, n)) is rejected with a structured error before the
algorithm starts. Numerical issues (NaN, infinity) must also be
rejected." -/
def scanCosts : Nat → List (Int × Int × FV) → Option ErrorKind
  | _, [] => none
  | i, (_, _, c) :: rest =>
    match c with
    | .fin q => if q.isNeg then some (.negativeCost i) else scanCosts (i + 1) rest
    | _ => some (.nonFinite i)

/-- Modelled from the spec: scan of the prize values, rejecting the first
non-finite or negative prize. -/
def scanPrizes : Nat → List FV → Option ErrorKind
  | _, [] => none
  | i, p :: rest =>
    match p with
    | .fin q => if q.isNeg then some (.negativePrize i) else scanPrizes (i + 1) rest
    | _ => some (.nonFinite i)

/-- Bounds check of one edge endpoint against the node count. -/
def endpointOk (n : Nat) (u : Int) : Bool :=
  decide (0 ≤ u) && decide (u < (n : Int))

/-- Modelled from the spec: scan of the edge endpoints, rejecting the first
endpoint outside `[0, n)`. -/
def scanEndpoints (n : Nat) : Nat → List (Int × Int × FV) → Option ErrorKind
  | _, [] => none
  | i, (u, v, _) :: rest =>
    if endpointOk n u && endpointOk n v then scanEndpoints n (i + 1) rest
    else some (.edgeEndpointOutOfRange i)

/-- Modelled from the spec: eager input validation of the solver core,
performed before any growth structure is built.  Checks costs, prizes,
edge endpoints, the root range, and the spec precondition
"target_num_active_clusters must be 0 if root is set"
(`RootConflictsWithClusters`). -/
def validate (inp : PcstInput) : Except ErrorKind ValidInput :=
  match scanCosts 0 inp.edges with
  | some e => .error e
  | none =>
  match scanPrizes 0 inp.prizes with
  | some e => .error e
  | none =>
  match scanEndpoints inp.prizes.length 0 inp.edges with
  | some e => .error e
  | none =>
  if inp.root = -1 ∨ (0 ≤ inp.root ∧ inp.root < (inp.prizes.length : Int)) then
    if inp.root ≠ -1 ∧ inp.target ≠ 0 then .error .rootConflictsWithClusters
    else
      .ok
        { n := inp.prizes.length
          edges := inp.edges.map (fun e => (e.1.toNat, e.2.1.toNat))
          costs := inp.edges.map (fun e => e.2.2.toQ)
          prizes := inp.prizes.map FV.toQ
          root := if inp.root = -1 then none else some inp.root.toNat
          target := inp.target
          pruning := inp.pruning }
  else .error (.rootOutOfRange inp.root)

/- ===================== Growth phase (moat growing) ===================== -/

/-- Endpoint pair of edge `i` of a validated input. -/
def pairAt (v : ValidInput) (i : Nat) : Nat × Nat :=
  v.edges.getD i (0, 0)

/-- Modelled from the spec: the state of the growth driver.  `comp` is the
cluster labelling of the nodes, `active` the labels of the active clusters,
`remaining` the remaining prize credit per cluster label, `slack` the
residual cost of each edge (cost minus the dual contributions of both
sides), `good` the chronological list of good edges (each with the node
list of the cluster that was absorbed by its merge), and `time` the global
dual parameter.  The spec's pairing heaps and event queue are an efficiency
device; the observable behaviour is time-ordered event processing, which
this state realises directly. -/
structure GrowthState where
  comp : Nat → Nat
  active : List Nat
  remaining : Nat → QV
  slack : List QV
  good : List (Nat × List Nat)
  time : QV

/-- Indices of the good edges, in the order they became tight. -/
def goodIdx (s : GrowthState) : List Nat :=
  s.good.map Prod.fst

/-- Endpoint pairs of the good edges. -/
def goodPairs (v : ValidInput) (s : GrowthState) : List (Nat × Nat) :=
  (goodIdx s).map (pairAt v)

/-- Whether a cluster label is the label of the root's cluster. -/
def isRootLab (v : ValidInput) (s : GrowthState) (c : Nat) : Bool :=
  match v.root with
  | none => false
  | some rt => c == s.comp rt

/-- A growth event: an edge becoming tight, or a cluster deactivating. -/
inductive GrowEv where
  | edgeEv (i : Nat)
  | deactEv (c : Nat)
deriving DecidableEq, Repr

/-- Number of active clusters among the two endpoint clusters of an edge:
the rate at which the edge's slack is consumed. -/
def edgeRate (s : GrowthState) (u v : Nat) : Nat :=
  (if s.active.contains (s.comp u) then 1 else 0) +
    (if s.active.contains (s.comp v) then 1 else 0)

/-- Modelled from the spec: the pending edge events.  An edge between two
distinct clusters at least one of which is active becomes tight after
`slack / rate` more growth. -/
def edgeCandidates (v : ValidInput) (s : GrowthState) : List (GrowEv × QV) :=
  (List.range v.edges.length).filterMap fun i =>
    let p := pairAt v i
    if s.comp p.1 = s.comp p.2 then none
    else
      let r := edgeRate s p.1 p.2
      if r = 0 then none
      else some (.edgeEv i, QV.div (s.slack.getD i (QV.ofInt 0)) (QV.ofInt (r : Int)))

/-- Modelled from the spec: the pending cluster-deactivation events.  An
active cluster deactivates when its remaining prize is exhausted; the
root's cluster is never scheduled ("the cluster for r is flagged to never
deactivate"). -/
def deactCandidates (v : ValidInput) (s : GrowthState) : List (GrowEv × QV) :=
  (s.active.filter fun c => !(isRootLab v s c)).map fun c => (.deactEv c, s.remaining c)

/-- Earliest event; on equal times the earlier entry of the candidate list
wins, realising the spec's tie-break (edge events before deactivations,
then by index). -/
def pickMin : List (GrowEv × QV) → Option (GrowEv × QV) :=
  List.foldl
    (fun acc x =>
      match acc with
      | none => some x
      | some y => if QV.blt x.2 y.2 then some x else some y)
    none

/-- Modelled from the spec: advance the dual parameter by `d`: every
inter-cluster edge loses `rate * d` slack and every active cluster spends
`d` of its remaining prize. -/
def advanceBy (v : ValidInput) (s : GrowthState) (d : QV) : GrowthState :=
  { s with
    slack :=
      (List.range v.edges.length).map fun i =>
        let p := pairAt v i
        if s.comp p.1 = s.comp p.2 then s.slack.getD i (QV.ofInt 0)
        else
          QV.sub (s.slack.getD i (QV.ofInt 0))
            (QV.mul (QV.ofInt (edgeRate s p.1 p.2 : Int)) d)
    remaining := fun c =>
      if s.active.contains c then QV.sub (s.remaining c) d else s.remaining c
    time := QV.add s.time d }

/-- Modelled from the spec: the cluster merge along edge `i`.  The edge is
appended to the good edges (recording the node set of the absorbed
cluster), the two clusters become one, the absorbed cluster's remaining
credit is added, and the merged cluster is active if either side was. -/
def mergeAt (v : ValidInput) (s : GrowthState) (i : Nat) : GrowthState :=
  { s with
    comp := mergeFn s.comp (pairAt v i)
    active :=
      if s.active.contains (s.comp (pairAt v i).1) then
        s.active.erase (s.comp (pairAt v i).2)
      else if s.active.contains (s.comp (pairAt v i).2) then
        s.comp (pairAt v i).1 :: s.active.erase (s.comp (pairAt v i).2)
      else s.active
    remaining := fun c =>
      if c = s.comp (pairAt v i).1 then
        QV.add (s.remaining (s.comp (pairAt v i).1)) (s.remaining (s.comp (pairAt v i).2))
      else s.remaining c
    good :=
      s.good ++
        [(i, (List.range (v.n)).filter fun x => s.comp x == s.comp (pairAt v i).2)] }

/-- Modelled from the spec: process one event.  An edge event between two
clusters that have meanwhile become one is discarded ("If a == b: discard
(internal edge)"); otherwise the two clusters merge. -/
def applyEvent (v : ValidInput) (s : GrowthState) : GrowEv → GrowthState
  | .deactEv c => { s with active := s.active.erase c }
  | .edgeEv i =>
    if s.comp (pairAt v i).1 = s.comp (pairAt v i).2 then s else mergeAt v s i

/-- Modelled from the spec: the termination test of the main loop.  Rooted:
stop when no active cluster other than the root's remains; unrooted: stop
when the number of active clusters has reached the target. -/
def growDone (v : ValidInput) (s : GrowthState) : Bool :=
  match v.root with
  | some rt => (s.active.filter fun c => c != s.comp rt).isEmpty
  | none => s.active.length ≤ v.target

/-- One iteration of the growth loop: pick the earliest pending event,
advance time to it, process it.  `none` when the event queue is empty. -/
def growStep (v : ValidInput) (s : GrowthState) : Option GrowthState :=
  match pickMin (edgeCandidates v s ++ deactCandidates v s) with
  | none => none
  | some ed => some (applyEvent v (advanceBy v s ed.2) ed.1)

/-- Modelled from the spec: the growth main loop.  The fuel only bounds the
recursion of the embedding; it is chosen beyond the number of events the
loop can process (each event merges or deactivates a cluster), so the
`fuel = 0` branch is never reached from `runGrowth`. -/
def growLoop (v : ValidInput) : Nat → GrowthState → GrowthState
  | 0, s => s
  | fuel + 1, s =>
    if growDone v s then s
    else
      match growStep v s with
      | none => s
      | some s2 => growLoop v fuel s2

/-- Modelled from the spec: the initial growth state — singleton clusters,
active iff the prize is positive (or the node is the root), full costs as
slack. -/
def initGrowth (v : ValidInput) : GrowthState :=
  { comp := fun x => x
    active :=
      (List.range (v.n)).filter fun x =>
        QV.blt (QV.ofInt 0) (v.prizes.getD x (QV.ofInt 0)) || decide (v.root = some x)
    remaining := fun c => v.prizes.getD c (QV.ofInt 0)
    slack := v.costs
    good := []
    time := QV.ofInt 0 }

/-- Fuel bound of the growth loop: more than the largest possible number of
merge and deactivation events. -/
def growFuel (v : ValidInput) : Nat :=
  4 * v.n + 4

/-- The complete growth phase. -/
def runGrowth (v : ValidInput) : GrowthState :=
  growLoop v (growFuel v) (initGrowth v)

/- ===================== Pruning ===================== -/

/-- Degree of a node in the currently kept good-edge list. -/
def degreeIn (v : ValidInput) (cur : List (Nat × List Nat)) (x : Nat) : Nat :=
  cur.foldl
    (fun acc g =>
      let p := pairAt v g.1
      acc + (if p.1 = x then 1 else 0) + (if p.2 = x then 1 else 0))
    0

/-- Whether a node must never be pruned (the root, in the rooted case). -/
def keepNode (v : ValidInput) (x : Nat) : Bool :=
  match v.root with
  | none => false
  | some rt => x == rt

/-- A leaf edge removable by simple pruning: one endpoint is a leaf, is not
the root, and its prize is below the edge cost. -/
def badLeaf (v : ValidInput) (cur : List (Nat × List Nat)) (g : Nat × List Nat) : Bool :=
  let p := pairAt v g.1
  let c := v.costs.getD g.1 (QV.ofInt 0)
  (degreeIn v cur p.1 == 1 && !(keepNode v p.1) &&
      QV.blt (v.prizes.getD p.1 (QV.ofInt 0)) c) ||
    (degreeIn v cur p.2 == 1 && !(keepNode v p.2) &&
      QV.blt (v.prizes.getD p.2 (QV.ofInt 0)) c)

/-- Modelled from the spec: simple pruning — iteratively remove leaf edges
whose leaf's prize is below the edge cost, until none is left. -/
def leafPruneLoop (v : ValidInput) : Nat → List (Nat × List Nat) → List (Nat × List Nat)
  | 0, cur => cur
  | fuel + 1, cur =>
    match cur.find? (badLeaf v cur) with
    | none => cur
    | some g => leafPruneLoop v fuel (cur.erase g)

/-- Simple pruning entry point. -/
def leafPrune (v : ValidInput) (good : List (Nat × List Nat)) : List (Nat × List Nat) :=
  leafPruneLoop v good.length good

/-- Modelled from the spec: one reverse-chronological gw pruning pass.
`dropped` collects the nodes of discarded absorbed components; a merge edge
is kept only if it does not hang off a dropped node and the absorbed side's
prize exceeds the edge cost ("otherwise the entire absorbed side is
dropped"). -/
def gwAux (v : ValidInput) : List Nat → List (Nat × List Nat) → List (Nat × List Nat)
  | _, [] => []
  | dropped, g :: rest =>
    if dropped.contains (pairAt v g.1).1 || dropped.contains (pairAt v g.1).2 then
      gwAux v (dropped ++ g.2) rest
    else
      if QV.ble (qsum (g.2.map fun x => v.prizes.getD x (QV.ofInt 0)))
          (v.costs.getD g.1 (QV.ofInt 0)) then
        gwAux v (dropped ++ g.2) rest
      else g :: gwAux v dropped rest

/-- gw pruning: walk the merge trace in reverse chronological order. -/
def gwPrune (v : ValidInput) (good : List (Nat × List Nat)) : List (Nat × List Nat) :=
  (gwAux v [] good.reverse).reverse

/-- Modelled from the spec: strong pruning — gw pruning followed by the
cascading subtree test, modelled by its leaf-cascade effect (dropping a
subtree turns interior nodes into leaves that are then dropped in turn). -/
def strongPrune (v : ValidInput) (good : List (Nat × List Nat)) : List (Nat × List Nat) :=
  leafPrune v (gwPrune v good)

/-- Pruning dispatch on the method number (0 none, 1 simple, 2 gw,
3 strong). -/
def selectEdges (v : ValidInput) (s : GrowthState) : List (Nat × List Nat) :=
  if v.pruning = 0 then s.good
  else if v.pruning = 2 then gwPrune v s.good
  else if v.pruning = 3 then strongPrune v s.good
  else leafPrune v s.good

/- ===================== Result assembly ===================== -/

/-- Result of a solve: the selected node indices and edge indices. -/
structure SolveResult where
  nodes : List Nat
  edges : List Nat
deriving DecidableEq, Repr

/-- Both endpoints of every selected edge, with repetitions. -/
def endpointsOf (v : ValidInput) (sel : List Nat) : List Nat :=
  (sel.map fun i => [(pairAt v i).1, (pairAt v i).2]).flatten

/-- Whether a node still forms a singleton cluster at the end of growth. -/
def isSingletonCluster (v : ValidInput) (s : GrowthState) (x : Nat) : Bool :=
  ((List.range (v.n)).filter fun y => s.comp y == s.comp x).length == 1

/-- Modelled from the spec: the isolated kept nodes of the unrooted case —
nodes whose singleton cluster survived as active and whose prize alone
beats the empty set. -/
def keptSingles (v : ValidInput) (s : GrowthState) : List Nat :=
  (List.range (v.n)).filter fun x =>
    QV.blt (QV.ofInt 0) (v.prizes.getD x (QV.ofInt 0)) && s.active.contains (s.comp x) &&
      isSingletonCluster v s x

/-- Modelled from the spec: the rooted-case retention rule of the pruning
engine — only edges of the root's component are returned, so that no
returned node loses its path to the root. -/
def rootFilter (v : ValidInput) (rt : Nat) (sel : List Nat) : List Nat :=
  sel.filter fun i =>
    connB (sel.map (pairAt v)) rt (pairAt v i).1 &&
      connB (sel.map (pairAt v)) rt (pairAt v i).2

/-- Modelled from the spec: result assembly — the pruned edge set with the
set of its endpoints; rooted, the root is always returned; unrooted, the
surviving prize-only singletons are added. -/
def assemble (v : ValidInput) (s : GrowthState) (sel : List Nat) : SolveResult :=
  match v.root with
  | some rt =>
    let kept := rootFilter v rt sel
    { nodes := (rt :: endpointsOf v kept).dedup, edges := kept }
  | none => { nodes := (endpointsOf v sel ++ keptSingles v s).dedup, edges := sel }

/-- Growth, pruning and assembly of a validated input. -/
def runPipeline (v : ValidInput) : SolveResult :=
  let s := runGrowth v
  assemble v s ((selectEdges v s).map Prod.fst)

/-- Modelled from the spec: the solver core entry point `pcst_solve`
(declared in pcst_fast_c_wrapper.h; its implementation is not in the
tree).  Validation runs eagerly; a valid input always produces a result. -/
def pcst_solve (inp : PcstInput) : Except ErrorKind SolveResult :=
  match validate inp with
  | .error e => .error e
  | .ok v => .ok (runPipeline v)

/-- Cost values of the raw input, in edge order. -/
def inputCosts (inp : PcstInput) : List FV :=
  inp.edges.map fun e => e.2.2

/-- Modelled from the spec: the contents of the costs buffer handed to
`pcst_solve` after the call returns.  Per the spec's design notes the
source's core mutates the cost array in place ("In-place mutation of input
cost array (observed in the source)"); the mutation is modelled as the
residual slack left by the growth phase.  On a validation error the buffer
is untouched. -/
def pcst_solve_costs_after (inp : PcstInput) : List QV :=
  match validate inp with
  | .error _ => (inputCosts inp).map FV.toQ
  | .ok v => (runGrowth v).slack

/-- Decidable equality of `Except` results, so that concrete solver runs
can be checked with `decide`. -/
instance {E A : Type} [DecidableEq E] [DecidableEq A] : DecidableEq (Except E A) :=
  fun x y =>
    match x, y with
    | .ok a, .ok b =>
      if h : a = b then isTrue (by rw [h]) else isFalse (fun hc => h (Except.ok.inj hc))
    | .error a, .error b =>
      if h : a = b then isTrue (by rw [h]) else isFalse (fun hc => h (Except.error.inj hc))
    | .ok _, .error _ => isFalse (fun hc => Except.noConfusion hc)
    | .error _, .ok _ => isFalse (fun hc => Except.noConfusion hc)

/- ===================== pcst_fast_pg wrapper (from src) ===================== -/

/-- Pruning-string decoding of pcst_fast_pg (pcst_fast_pg.c lines 101-110):
unknown strings silently fall back to gw (method 2). -/
def pruningMethodPg (s : String) : Nat :=
  if s = "none" then 0
  else if s = "simple" then 1
  else if s = "gw" then 2
  else if s = "strong" then 3
  else 2

/-- Pruning-string decoding of pcst_fast_pgr (pcst_fast_pg.c lines
658-667): unknown strings silently fall back to simple (method 1). -/
def pruningMethodPgrStr (s : String) : Nat :=
  if s = "none" then 0
  else if s = "simple" then 1
  else if s = "gw" then 2
  else if s = "strong" then 3
  else 1

/-- Pruning decoding of pcst_fast_pgr including the NULL default
(pcst_fast_pg.c lines 653-657: NULL means "simple"). -/
def pruningMethodPgr (s : Option String) : Nat :=
  pruningMethodPgrStr (s.getD ("simple"))

/-- Arguments of the array-based entry point pcst_fast_pg. -/
structure PgArgs where
  edges : List (Int × Int)
  prizes : List FV
  costs : List FV
  root : Int
  numClusters : Nat
  pruning : String
deriving DecidableEq, Repr

/-- Core input built by pcst_fast_pg (pcst_fast_pg.c lines 90-117): the
caller's arrays are passed through unchanged, the pruning string is
decoded. -/
def pgInput (a : PgArgs) : PcstInput :=
  { edges := (a.edges.zip a.costs).map fun e => (e.1.1, e.1.2, e.2)
    prizes := a.prizes
    root := a.root
    target := a.numClusters
    pruning := pruningMethodPg a.pruning }

/-- The result record of the solver core as seen by the C wrapper
(pcst_result_t in pcst_fast_c_wrapper.h). -/
structure PcstCResult where
  success : Bool
  errorMessage : String
  resultNodes : List Int
  resultEdges : List Int
deriving DecidableEq, Repr

/-- Result handling of pcst_fast_pg (pcst_fast_pg.c lines 119-124): on
failure an error is raised whose message is "PCST algorithm failed: "
followed by the core's error message and nothing else — the in-scope
context (node count, edge count, root, number of clusters, pruning) is not
part of the report. -/
def pgHandleResult (n m root numClusters : Int) (pruning : String)
    (res : PcstCResult) : Except String (List Int × List Int) :=
  if res.success then .ok (res.resultNodes, res.resultEdges)
  else .error ("PCST algorithm failed: " ++ res.errorMessage)

/-- Modelled from the spec: the human-readable messages of the core's
structured errors, containing the offending index/value ("a human-readable
message containing the offending index/value"). -/
def errorKindMessage : ErrorKind → String
  | .negativeCost i => "negative edge cost at index " ++ toString i
  | .negativePrize i => "negative prize at index " ++ toString i
  | .nonFinite i => "non-finite value at index " ++ toString i
  | .rootOutOfRange r => "root index " ++ toString r ++ " out of range"
  | .rootConflictsWithClusters => "target_num_active_clusters must be 0 if root is set"
  | .edgeEndpointOutOfRange i => "edge endpoint out of range at edge " ++ toString i
  | .algorithmFailure => "algorithm failure"

/-- The array-based entry point pcst_fast_pg: decode arguments, call the
core, surface failures as "PCST algorithm failed: <message>" (pcst_fast_pg.c
lines 46-168). -/
def pcst_fast_pg (a : PgArgs) : Except String SolveResult :=
  match pcst_solve (pgInput a) with
  | .ok r => .ok r
  | .error e => .error ("PCST algorithm failed: " ++ errorKindMessage e)

/-- The caller's costs buffer after a pcst_fast_pg call: the wrapper passes
the caller's array pointer straight to the core (pcst_fast_pg.c lines
85 and 113-117, no copy), so the caller observes the core's in-place
mutation. -/
def pgCallerCostsAfter (a : PgArgs) : List QV :=
  pcst_solve_costs_after (pgInput a)

/-- The caller's costs buffer before a pcst_fast_pg call, as fractions. -/
def pgCallerCostsBefore (a : PgArgs) : List QV :=
  (inputCosts (pgInput a)).map FV.toQ

/- ===================== pcst_fast_pgr wrapper (from src) ===================== -/

/-- One row of the edges SQL query: id, source, target, cost (ids as text;
pcst_fast_pg.c converts every id type to text). -/
structure EdgeRow where
  eid : String
  src : String
  tgt : String
  cost : FV
deriving DecidableEq, Repr

/-- One row of the nodes SQL query: id, prize. -/
structure NodeRow where
  nid : String
  prize : FV
deriving DecidableEq, Repr

/-- Lookup of a node id in the id-to-index mapping (the hash table of
pcst_fast_pg.c, keyed by text content). -/
def lookupId : List (String × Nat) → String → Option Nat
  | [], _ => none
  | kv :: rest, s => if kv.1 == s then some kv.2 else lookupId rest s

/-- get_node_index (pcst_fast_pg.c lines 237-275): find the id's index or
assign the next fresh index. -/
def addNodeId (m : List (String × Nat)) (s : String) : List (String × Nat) × Nat :=
  match lookupId m s with
  | some k => (m, k)
  | none => (m ++ [(s, m.length)], m.length)

/-- Edge-row processing loop (pcst_fast_pg.c lines 377-428): map each
source and target id to an internal index (source first), collecting the
internal edges. -/
def buildGraphAux :
    List (String × Nat) → List (Nat × Nat × FV) → List EdgeRow →
      List (String × Nat) × List (Nat × Nat × FV)
  | m, acc, [] => (m, acc)
  | m, acc, r :: rest =>
    buildGraphAux (addNodeId (addNodeId m r.src).1 r.tgt).1
      (acc ++
        [((addNodeId m r.src).2, (addNodeId (addNodeId m r.src).1 r.tgt).2, r.cost)])
      rest

/-- Id mapping and internal edge list built from the edges query rows. -/
def buildGraph (rows : List EdgeRow) : List (String × Nat) × List (Nat × Nat × FV) :=
  buildGraphAux [] [] rows

/-- Node-row processing (pcst_fast_pg.c lines 434 and 462-554): prizes
start at zero (palloc0) and each nodes-query row whose id appears among the
edge endpoints sets its node's prize; other rows are skipped. -/
def buildPrizes (m : List (String × Nat)) (rows : List NodeRow) : List FV :=
  rows.foldl
    (fun pr r =>
      match lookupId m r.nid with
      | some i => pr.set i r.prize
      | none => pr)
    (List.replicate m.length (FV.fin (QV.ofInt 0)))

/-- Root-id mapping of pcst_fast_pgr (pcst_fast_pg.c lines 630-650): NULL
and the text "-1" both mean no root (internal index -1); any other id must
appear in the node map (built from the edge endpoints) or the call fails. -/
def mapRootIndex (rootId : Option String) (m : List (String × Nat)) : Except String Int :=
  match rootId with
  | none => .ok (-1)
  | some s =>
    if s = "-1" then .ok (-1)
    else
      match lookupId m s with
      | some i => .ok (i : Int)
      | none => .error ("root node ID '" ++ s ++ "' not found in edges")

/-- The core input assembled by pcst_fast_pgr from the query rows and the
decoded root index. -/
def pgrCoreInput (edgeRows : List EdgeRow) (nodeRows : List NodeRow) (rootIdx : Int)
    (numClusters : Nat) (pruning : Option String) : PcstInput :=
  let g := buildGraph edgeRows
  { edges := g.2.map fun e => ((e.1 : Int), (e.2.1 : Int), e.2.2)
    prizes := buildPrizes g.1 nodeRows
    root := rootIdx
    target := numClusters
    pruning := pruningMethodPgr pruning }

/-- One output row of pcst_fast_pgr: seq, edge id, source id, target id,
cost (pcst_fast_pg.c lines 860-999; the cost comes from the preserved
original costs, lines 729-732 and 816). -/
structure PgrRow where
  seq : Nat
  edge : String
  source : String
  target : String
  cost : FV
deriving DecidableEq, Repr

/-- Result rows of pcst_fast_pgr: one row per selected edge, mapping the
internal edge index back to the original ids and original cost. -/
def pgrRows (edgeRows : List EdgeRow) (r : SolveResult) : List PgrRow :=
  (List.range r.edges.length).map fun k =>
    let i := r.edges.getD k 0
    let row := edgeRows.getD i { eid := "", src := "", tgt := "", cost := FV.fin (QV.ofInt 0) }
    { seq := k + 1, edge := row.eid, source := row.src, target := row.tgt, cost := row.cost }

/-- The continuation of pcst_fast_pgr once the edges query returned rows:
root mapping, core call (on a copy of the costs, lines 734-746), result
rows or surfaced failure (lines 748-754). -/
def pgrAfterEmptyCheck (edgeRows : List EdgeRow) (nodeRows : List NodeRow)
    (rootId : Option String) (numClusters : Nat) (pruning : Option String) :
    Except String (List PgrRow) :=
  match mapRootIndex rootId (buildGraph edgeRows).1 with
  | .error msg => .error msg
  | .ok rootIdx =>
    match pcst_solve (pgrCoreInput edgeRows nodeRows rootIdx numClusters pruning) with
    | .ok r => .ok (pgrRows edgeRows r)
    | .error e => .error ("PCST algorithm failed: " ++ errorKindMessage e)

/-- The query-based entry point pcst_fast_pgr (pcst_fast_pg.c lines
278-1009): an empty edges query is rejected eagerly (lines 355-358), an
empty nodes query is accepted with all prizes zero (lines 623-628). -/
def pcst_fast_pgr (edgeRows : List EdgeRow) (nodeRows : List NodeRow)
    (rootId : Option String) (numClusters : Nat) (pruning : Option String) :
    Except String (List PgrRow) :=
  if edgeRows.isEmpty then .error ("edges query returned no rows")
  else pgrAfterEmptyCheck edgeRows nodeRows rootId numClusters pruning

/-- All node ids appearing as an edge endpoint, in row order. -/
def endpointIds (rows : List EdgeRow) : List String :=
  (rows.map fun r => [r.src, r.tgt]).flatten

/-- The caller-side costs of the pgr path after the call: pcst_fast_pgr
passes a copy of the costs to the core and keeps the original
(edge_costs_original, pcst_fast_pg.c lines 726-746 and 816), so the
caller-visible costs are the ones loaded from the query. -/
def pgrStoredCostsAfter (edgeRows : List EdgeRow) : List FV :=
  edgeRows.map fun r => r.cost

/- ===================== Invariants and claim predicates ===================== -/

/-- Invariant of the growth phase: the cluster labelling is exactly the one
generated by the good edges, the good edges pass the incremental forest
check, their indices are distinct, and every good edge is a real edge that
has become internal to its cluster. -/
def GrowInv (v : ValidInput) (s : GrowthState) : Prop :=
  s.comp = runDSU (goodPairs v s) ∧
  acyclicEdges (goodPairs v s) = true ∧
  (goodIdx s).Nodup ∧
  ∀ g ∈ s.good, g.1 < v.edges.length ∧ s.comp (pairAt v g.1).1 = s.comp (pairAt v g.1).2

/-- The invalid-input classes named by the spec: a negative cost, a
negative prize, a non-finite cost or prize, a root index out of range, or
an edge endpoint outside `[0, n)`. -/
def C3Invalid (inp : PcstInput) : Prop :=
  (∃ (i : Nat) (u v : Int) (q : QV), inp.edges[i]? = some (u, v, FV.fin q) ∧ q.isNeg = true) ∨
  (∃ (i : Nat) (u v : Int) (c : FV), inp.edges[i]? = some (u, v, c) ∧ c.isFinite = false) ∨
  (∃ (i : Nat) (q : QV), inp.prizes[i]? = some (FV.fin q) ∧ q.isNeg = true) ∨
  (∃ (i : Nat) (p : FV), inp.prizes[i]? = some p ∧ p.isFinite = false) ∨
  ¬(inp.root = -1 ∨ (0 ≤ inp.root ∧ inp.root < (inp.prizes.length : Int))) ∨
  (∃ (i : Nat) (u v : Int) (c : FV), inp.edges[i]? = some (u, v, c) ∧
    (endpointOk inp.prizes.length u && endpointOk inp.prizes.length v) = false)

/-- The structured error kind is documented: it names a violation that the
input really exhibits. -/
def KindMatches (inp : PcstInput) : ErrorKind → Prop
  | .negativeCost i => ∃ (u v : Int) (q : QV), inp.edges[i]? = some (u, v, FV.fin q) ∧ q.isNeg = true
  | .negativePrize i => ∃ (q : QV), inp.prizes[i]? = some (FV.fin q) ∧ q.isNeg = true
  | .nonFinite i =>
    (∃ (u v : Int) (c : FV), inp.edges[i]? = some (u, v, c) ∧ c.isFinite = false) ∨
      (∃ (p : FV), inp.prizes[i]? = some p ∧ p.isFinite = false)
  | .rootOutOfRange r =>
    r = inp.root ∧ ¬(inp.root = -1 ∨ (0 ≤ inp.root ∧ inp.root < (inp.prizes.length : Int)))
  | .rootConflictsWithClusters => inp.root ≠ -1 ∧ inp.target ≠ 0
  | .edgeEndpointOutOfRange i =>
    ∃ (u v : Int) (c : FV), inp.edges[i]? = some (u, v, c) ∧
      (endpointOk inp.prizes.length u && endpointOk inp.prizes.length v) = false
  | .algorithmFailure => False

/- ===================== Concrete inputs for witnesses ===================== -/

/-- The spec's seed scenario 1: the chain 0-1-2-3 with prizes
[50, 10, 15, 40] and costs [5, 8, 12], unrooted, strong pruning. -/
def chainInp : PcstInput :=
  { edges := [(0, 1, FV.fin (QV.ofInt 5)), (1, 2, FV.fin (QV.ofInt 8)), (2, 3, FV.fin (QV.ofInt 12))]
    prizes := [FV.fin (QV.ofInt 50), FV.fin (QV.ofInt 10), FV.fin (QV.ofInt 15), FV.fin (QV.ofInt 40)]
    root := -1
    target := 1
    pruning := 3 }

/-- The spec's seed scenario 2: the same chain rooted at node 0 with simple
pruning. -/
def chainRootedInp : PcstInput :=
  { chainInp with root := 0, target := 0, pruning := 1 }

/-- An input with a negative cost (invalid). -/
def negCostInp : PcstInput :=
  { edges := [(0, 1, FV.fin { num := -3, den := 1 })]
    prizes := [FV.fin (QV.ofInt 1), FV.fin (QV.ofInt 1)]
    root := -1
    target := 1
    pruning := 1 }

/-- A rooted input with a non-zero cluster target (violates the rooted
precondition). -/
def rootTargetInp : PcstInput :=
  { edges := []
    prizes := [FV.fin (QV.ofInt 1)]
    root := 0
    target := 1
    pruning := 1 }

/-- pcst_fast_pg arguments of the two-node example whose solve pays the
whole edge cost, exposing the cost-buffer mutation. -/
def mutArgs : PgArgs :=
  { edges := [(0, 1)]
    prizes := [FV.fin (QV.ofInt 5), FV.fin (QV.ofInt 5)]
    costs := [FV.fin (QV.ofInt 1)]
    root := -1
    numClusters := 1
    pruning := "none" }

/-- A one-edge edges-query result used by the pgr witnesses. -/
def rowsEx : List EdgeRow :=
  [{ eid := "e1", src := "a", tgt := "b", cost := FV.fin (QV.ofInt 1) }]

/-- A one-row nodes-query result used by the pgr witnesses. -/
def nodeRowsEx : List NodeRow :=
  [{ nid := "a", prize := FV.fin (QV.ofInt 7) }]

/-- The validated form of `chainInp`. -/
def chainValid : ValidInput :=
  { n := 4
    edges := [(0, 1), (1, 2), (2, 3)]
    costs := [{ num := 5, den := 1 }, { num := 8, den := 1 }, { num := 12, den := 1 }]
    prizes := [{ num := 50, den := 1 }, { num := 10, den := 1 },
      { num := 15, den := 1 }, { num := 40, den := 1 }]
    root := none
    target := 1
    pruning := 3 }

/-- The validated form of `chainRootedInp`. -/
def chainRootedValid : ValidInput :=
  { chainValid with root := some 0, target := 0, pruning := 1 }

/-- The solver result of the two chain scenarios: the whole chain. -/
def chainResult : SolveResult :=
  { nodes := [0, 1, 2, 3], edges := [0, 1, 2] }

/- ===================== Lemmas: component machinery ===================== -/

theorem mergeFn_eq_of_eq {f : Nat → Nat} (e : Nat × Nat) {x y : Nat} (h : f x = f y) :
    mergeFn f e x = mergeFn f e y := by
  simp [mergeFn, h]

theorem coarser_refl (f : Nat → Nat) : Coarser f f := fun _ _ h => h

theorem coarser_trans {h g f : Nat → Nat} (h1 : Coarser h g) (h2 : Coarser g f) :
    Coarser h f :=
  fun x y hxy => h1 x y (h2 x y hxy)

theorem coarser_mergeFn (f : Nat → Nat) (e : Nat × Nat) : Coarser (mergeFn f e) f :=
  fun _ _ h => mergeFn_eq_of_eq e h

theorem coarser_mergeFn_both {g f : Nat → Nat} (e : Nat × Nat) (hc : Coarser g f) :
    Coarser (mergeFn g e) (mergeFn f e) := by
  intro x y h
  by_cases hx : f x = f e.2 <;> by_cases hy : f y = f e.2
  · simp [mergeFn, hc _ _ hx, hc _ _ hy]
  · rw [mergeFn, if_pos hx, mergeFn, if_neg hy] at h
    have h1 : g x = g e.2 := hc _ _ hx
    have h2 : g e.1 = g y := hc _ _ h
    by_cases hgy : g y = g e.2
    · simp [mergeFn, h1, hgy]
    · simp [mergeFn, h1, hgy, h2]
  · rw [mergeFn, if_neg hx, mergeFn, if_pos hy] at h
    have h1 : g y = g e.2 := hc _ _ hy
    have h2 : g e.1 = g x := hc _ _ h.symm
    by_cases hgx : g x = g e.2
    · simp [mergeFn, h1, hgx]
    · simp [mergeFn, h1, hgx, h2]
  · rw [mergeFn, if_neg hx, mergeFn, if_neg hy] at h
    simp [mergeFn, hc _ _ h]

theorem acyclicAux_mono {L1 L2 : List (Nat × Nat)} (hsub : L1.Sublist L2) :
    ∀ {f g : Nat → Nat}, Coarser g f → acyclicAux g L2 = true → acyclicAux f L1 = true := by
  induction hsub with
  | slnil => intro f g _ _; rfl
  | cons e hsub ih =>
    intro f g hc hacy
    rw [acyclicAux, Bool.and_eq_true] at hacy
    exact ih (coarser_trans (coarser_mergeFn g e) hc) hacy.2
  | cons₂ e hsub ih =>
    intro f g hc hacy
    rw [acyclicAux, Bool.and_eq_true] at hacy
    rw [acyclicAux, Bool.and_eq_true]
    refine ⟨?_, ih (coarser_mergeFn_both e hc) hacy.2⟩
    have hne : g e.1 ≠ g e.2 := by simpa using hacy.1
    have : f e.1 ≠ f e.2 := fun hh => hne (hc _ _ hh)
    simpa using this

theorem acyclic_sublist {L1 L2 : List (Nat × Nat)} (hsub : L1.Sublist L2)
    (h : acyclicEdges L2 = true) : acyclicEdges L1 = true :=
  acyclicAux_mono hsub (coarser_refl _) h

theorem dsuFrom_append (f : Nat → Nat) (L : List (Nat × Nat)) (e : Nat × Nat) :
    dsuFrom f (L ++ [e]) = mergeFn (dsuFrom f L) e := by
  simp [dsuFrom, List.foldl_append]

theorem acyclicAux_append (f : Nat → Nat) (L : List (Nat × Nat)) (e : Nat × Nat) :
    acyclicAux f (L ++ [e]) =
      (acyclicAux f L && (dsuFrom f L e.1 != dsuFrom f L e.2)) := by
  induction L generalizing f with
  | nil => simp [acyclicAux, dsuFrom]
  | cons x xs ih =>
    simp only [List.cons_append, acyclicAux, List.append_eq, ih, dsuFrom, List.foldl_cons,
      Bool.and_assoc]

theorem coarser_dsuFrom (f : Nat → Nat) (L : List (Nat × Nat)) :
    Coarser (dsuFrom f L) f := by
  induction L generalizing f with
  | nil => exact coarser_refl f
  | cons e es ih =>
    exact coarser_trans (ih (mergeFn f e)) (coarser_mergeFn f e)

theorem dsuFrom_adj_eq : ∀ (L : List (Nat × Nat)) (f : Nat → Nat) {a b : Nat},
    (a, b) ∈ L → dsuFrom f L a = dsuFrom f L b := by
  intro L
  induction L with
  | nil => intro f a b h; cases h
  | cons e es ih =>
    intro f a b h
    rcases List.mem_cons.mp h with he | hm
    · have hfst : mergeFn f e a = mergeFn f e b := by
        rw [show e = (a, b) from he.symm]
        simp [mergeFn]
      exact coarser_dsuFrom (mergeFn f e) es _ _ hfst
    · exact ih (mergeFn f e) hm

theorem adjIn_symm {L : List (Nat × Nat)} {x y : Nat} (h : adjIn L x y) : adjIn L y x :=
  h.elim Or.inr Or.inl

theorem conn_mono {L1 L2 : List (Nat × Nat)} (hsub : ∀ p ∈ L1, p ∈ L2) {x y : Nat}
    (h : ConnectedIn L1 x y) : ConnectedIn L2 x y :=
  Relation.ReflTransGen.mono (fun a b hab => hab.imp (hsub _) (hsub _)) h

theorem conn_imp_runDSU_eq {L : List (Nat × Nat)} {x y : Nat} (h : ConnectedIn L x y) :
    runDSU L x = runDSU L y := by
  induction h with
  | refl => rfl
  | tail _ hbc ih =>
    rcases hbc with hm | hm
    · exact ih.trans (dsuFrom_adj_eq L _ hm)
    · exact ih.trans (dsuFrom_adj_eq L _ hm).symm

theorem runDSU_eq_imp_conn : ∀ (L : List (Nat × Nat)) (x y : Nat),
    runDSU L x = runDSU L y → ConnectedIn L x y := by
  intro L
  induction L using List.reverseRecOn with
  | nil =>
    intro x y h
    have hxy : x = y := h
    exact hxy ▸ Relation.ReflTransGen.refl
  | append_singleton L e ih =>
    intro x y h
    have msub : ∀ p ∈ L, p ∈ L ++ [e] := fun p hp => List.mem_append_left _ hp
    have hstep12 : adjIn (L ++ [e]) e.1 e.2 := Or.inl (by simp)
    have hstep21 : adjIn (L ++ [e]) e.2 e.1 := Or.inr (by simp)
    rw [show runDSU (L ++ [e]) = mergeFn (runDSU L) e from dsuFrom_append _ L e] at h
    by_cases hx : runDSU L x = runDSU L e.2 <;> by_cases hy : runDSU L y = runDSU L e.2
    · exact conn_mono msub (ih x y (hx.trans hy.symm))
    · rw [mergeFn, if_pos hx, mergeFn, if_neg hy] at h
      have c1 : ConnectedIn (L ++ [e]) x e.2 := conn_mono msub (ih x e.2 hx)
      have c2 : ConnectedIn (L ++ [e]) e.1 y := conn_mono msub (ih e.1 y h)
      exact (c1.tail hstep21).trans c2
    · rw [mergeFn, if_neg hx, mergeFn, if_pos hy] at h
      have c1 : ConnectedIn (L ++ [e]) x e.1 := conn_mono msub (ih x e.1 h)
      have c2 : ConnectedIn (L ++ [e]) e.2 y := conn_mono msub (ih e.2 y hy.symm)
      exact (c1.tail hstep12).trans c2
    · rw [mergeFn, if_neg hx, mergeFn, if_neg hy] at h
      exact conn_mono msub (ih x y h)

theorem connB_iff_conn {L : List (Nat × Nat)} {x y : Nat} :
    connB L x y = true ↔ ConnectedIn L x y := by
  rw [connB, beq_iff_eq]
  exact ⟨runDSU_eq_imp_conn L x y, conn_imp_runDSU_eq⟩

theorem conn_rootFilter {S : List (Nat × Nat)} {rt u : Nat} (h : ConnectedIn S rt u) :
    ConnectedIn (S.filter fun p => connB S rt p.1 && connB S rt p.2) rt u := by
  induction h with
  | refl => exact Relation.ReflTransGen.refl
  | tail hrb hbc ih =>
    rename_i b c
    refine ih.tail ?_
    have hb : ConnectedIn S rt b := hrb
    have hc : ConnectedIn S rt c := hrb.tail hbc
    rcases hbc with hm | hm
    · refine Or.inl (List.mem_filter.mpr ⟨hm, ?_⟩)
      rw [Bool.and_eq_true, connB_iff_conn, connB_iff_conn]
      exact ⟨hb, hc⟩
    · refine Or.inr (List.mem_filter.mpr ⟨hm, ?_⟩)
      rw [Bool.and_eq_true, connB_iff_conn, connB_iff_conn]
      exact ⟨hc, hb⟩

theorem map_filter_comp {α β : Type} (f : α → β) (q : β → Bool) :
    ∀ l : List α, (l.filter fun a => q (f a)).map f = (l.map f).filter q := by
  intro l
  induction l with
  | nil => rfl
  | cons a l ih => by_cases hq : q (f a) <;> simp [List.filter_cons, hq, ih]

/- ===================== Lemmas: growth invariant ===================== -/

theorem goodPairs_mergeAt (v : ValidInput) (s : GrowthState) (i : Nat) :
    goodPairs v (mergeAt v s i) = goodPairs v s ++ [pairAt v i] := by
  simp [goodPairs, goodIdx, mergeAt]

theorem goodIdx_mergeAt (v : ValidInput) (s : GrowthState) (i : Nat) :
    goodIdx (mergeAt v s i) = goodIdx s ++ [i] := by
  simp [goodIdx, mergeAt]

theorem growInv_mergeAt {v : ValidInput} {s : GrowthState} {i : Nat}
    (hab : s.comp (pairAt v i).1 ≠ s.comp (pairAt v i).2) (h : GrowInv v s) :
    GrowInv v (mergeAt v s i) := by
  obtain ⟨hcomp, hacy, hnd, hmem⟩ := h
  have hbound : i < v.edges.length := by
    by_contra hlen
    push_neg at hlen
    exact hab (by rw [pairAt, List.getD_eq_default _ _ hlen])
  have hinternal : mergeFn s.comp (pairAt v i) (pairAt v i).1 =
      mergeFn s.comp (pairAt v i) (pairAt v i).2 := by
    simp [mergeFn, hab]
  refine ⟨?_, ?_, ?_, ?_⟩
  · show mergeFn s.comp (pairAt v i) = runDSU (goodPairs v (mergeAt v s i))
    rw [goodPairs_mergeAt, hcomp]
    exact (dsuFrom_append _ _ _).symm
  · rw [goodPairs_mergeAt]
    rw [acyclicEdges, acyclicAux_append, Bool.and_eq_true]
    refine ⟨hacy, ?_⟩
    have : dsuFrom (fun x => x) (goodPairs v s) = s.comp := hcomp.symm
    rw [show dsuFrom (fun x => x) (goodPairs v s) = s.comp from hcomp.symm]
    simpa using hab
  · rw [goodIdx_mergeAt]
    have hnotin : i ∉ goodIdx s := by
      intro hin
      obtain ⟨g, hg, hfst⟩ := List.mem_map.mp hin
      exact hab (hfst ▸ (hmem g hg).2)
    simp [List.nodup_append, hnd, hnotin]
  · intro g hg
    have : (mergeAt v s i).good =
        s.good ++ [(i, (List.range (v.n)).filter fun x => s.comp x == s.comp (pairAt v i).2)] :=
      rfl
    rw [this] at hg
    rcases List.mem_append.mp hg with hold | hnew
    · exact ⟨(hmem g hold).1, mergeFn_eq_of_eq _ (hmem g hold).2⟩
    · have hgi : g.1 = i := by
        rcases List.mem_singleton.mp hnew with rfl
        rfl
      rw [hgi]
      exact ⟨hbound, hinternal⟩

theorem growInv_advanceBy {v : ValidInput} {s : GrowthState} (d : QV) (h : GrowInv v s) :
    GrowInv v (advanceBy v s d) := h

theorem growInv_applyEvent {v : ValidInput} {s : GrowthState} (ev : GrowEv)
    (h : GrowInv v s) : GrowInv v (applyEvent v s ev) := by
  cases ev with
  | deactEv c => exact h
  | edgeEv i =>
    show GrowInv v
      (if s.comp (pairAt v i).1 = s.comp (pairAt v i).2 then s else mergeAt v s i)
    by_cases hab : s.comp (pairAt v i).1 = s.comp (pairAt v i).2
    · rw [if_pos hab]; exact h
    · rw [if_neg hab]; exact growInv_mergeAt hab h

theorem growInv_growStep {v : ValidInput} {s s2 : GrowthState} (h : GrowInv v s)
    (hst : growStep v s = some s2) : GrowInv v s2 := by
  unfold growStep at hst
  cases hp : pickMin (edgeCandidates v s ++ deactCandidates v s) with
  | none => rw [hp] at hst; cases hst
  | some ed =>
    rw [hp] at hst
    cases hst
    exact growInv_applyEvent ed.1 (growInv_advanceBy ed.2 h)

theorem growInv_growLoop {v : ValidInput} :
    ∀ (fuel : Nat) {s : GrowthState}, GrowInv v s → GrowInv v (growLoop v fuel s) := by
  intro fuel
  induction fuel with
  | zero => intro s h; exact h
  | succ n ih =>
    intro s h
    rw [growLoop]
    by_cases hd : growDone v s
    · rw [if_pos hd]; exact h
    · rw [if_neg hd]
      cases hst : growStep v s with
      | none => exact h
      | some s2 => exact ih (growInv_growStep h hst)

theorem growInv_initGrowth (v : ValidInput) : GrowInv v (initGrowth v) := by
  refine ⟨rfl, rfl, List.nodup_nil, ?_⟩
  intro g hg
  simp [initGrowth] at hg

theorem growInv_runGrowth (v : ValidInput) : GrowInv v (runGrowth v) :=
  growInv_growLoop _ (growInv_initGrowth v)

/- ===================== Lemmas: pruning selects a subset ===================== -/

theorem leafPruneLoop_sublist (v : ValidInput) :
    ∀ (fuel : Nat) (cur : List (Nat × List Nat)), (leafPruneLoop v fuel cur).Sublist cur := by
  intro fuel
  induction fuel with
  | zero => intro cur; exact List.Sublist.refl cur
  | succ n ih =>
    intro cur
    rw [leafPruneLoop]
    cases hf : cur.find? (badLeaf v cur) with
    | none => exact List.Sublist.refl cur
    | some g => exact (ih (cur.erase g)).trans (List.erase_sublist g cur)

theorem sublist_reverse {α : Type} {l1 l2 : List α} (h : l1.Sublist l2) :
    l1.reverse.Sublist l2.reverse := by
  induction h with
  | slnil => exact List.Sublist.refl []
  | cons a h ih =>
    rw [List.reverse_cons]
    exact ih.trans (List.sublist_append_left _ [a])
  | cons₂ a h ih =>
    rw [List.reverse_cons, List.reverse_cons]
    exact ih.append (List.Sublist.refl [a])

theorem gwAux_sublist (v : ValidInput) :
    ∀ (l : List (Nat × List Nat)) (d : List Nat), (gwAux v d l).Sublist l := by
  intro l
  induction l with
  | nil => intro d; exact List.Sublist.refl []
  | cons g rest ih =>
    intro d
    rw [gwAux]
    by_cases h1 : d.contains (pairAt v g.1).1 || d.contains (pairAt v g.1).2
    · rw [if_pos h1]
      exact (ih _).trans (List.sublist_cons_self g rest)
    · rw [if_neg h1]
      by_cases h2 : QV.ble (qsum ((g.2).map fun x => v.prizes.getD x (QV.ofInt 0)))
          (v.costs.getD g.1 (QV.ofInt 0))
      · rw [if_pos h2]
        exact (ih _).trans (List.sublist_cons_self g rest)
      · rw [if_neg h2]
        exact List.Sublist.cons₂ g (ih d)

theorem gwPrune_sublist (v : ValidInput) (good : List (Nat × List Nat)) :
    (gwPrune v good).Sublist good := by
  have h1 := gwAux_sublist v good.reverse []
  have h2 := sublist_reverse h1
  rw [List.reverse_reverse] at h2
  exact h2

theorem selectEdges_sublist (v : ValidInput) (s : GrowthState) :
    (selectEdges v s).Sublist s.good := by
  rw [selectEdges]
  by_cases h0 : v.pruning = 0
  · simp only [if_pos h0]
    exact List.Sublist.refl _
  · rw [if_neg h0]
    by_cases h2 : v.pruning = 2
    · rw [if_pos h2]; exact gwPrune_sublist v s.good
    · rw [if_neg h2]
      by_cases h3 : v.pruning = 3
      · rw [if_pos h3]
        exact (leafPruneLoop_sublist v _ _).trans (gwPrune_sublist v s.good)
      · rw [if_neg h3]; exact leafPruneLoop_sublist v _ _

/- ===================== Lemmas: result assembly ===================== -/

theorem endpointsOf_mem_fst {v : ValidInput} {sel : List Nat} {i : Nat} (h : i ∈ sel) :
    (pairAt v i).1 ∈ endpointsOf v sel := by
  rw [endpointsOf, List.mem_flatten]
  exact ⟨[(pairAt v i).1, (pairAt v i).2], List.mem_map_of_mem _ h, by simp⟩

theorem endpointsOf_mem_snd {v : ValidInput} {sel : List Nat} {i : Nat} (h : i ∈ sel) :
    (pairAt v i).2 ∈ endpointsOf v sel := by
  rw [endpointsOf, List.mem_flatten]
  exact ⟨[(pairAt v i).1, (pairAt v i).2], List.mem_map_of_mem _ h, by simp⟩

theorem mem_endpointsOf {v : ValidInput} {sel : List Nat} {x : Nat}
    (h : x ∈ endpointsOf v sel) :
    ∃ i ∈ sel, x = (pairAt v i).1 ∨ x = (pairAt v i).2 := by
  rw [endpointsOf, List.mem_flatten] at h
  obtain ⟨l, hl, hx⟩ := h
  obtain ⟨i, hi, rfl⟩ := List.mem_map.mp hl
  simp only [List.mem_cons, List.mem_singleton, List.not_mem_nil, or_false] at hx
  exact ⟨i, hi, hx⟩

theorem sel_props {v : ValidInput} {s : GrowthState} (hinv : GrowInv v s) {sel : List Nat}
    (hsub : sel.Sublist (goodIdx s)) :
    acyclicEdges (sel.map (pairAt v)) = true ∧ sel.Nodup ∧
      ∀ i ∈ sel, i < v.edges.length := by
  obtain ⟨hcomp, hacy, hnd, hmem⟩ := hinv
  refine ⟨acyclic_sublist (hsub.map (pairAt v)) hacy, hnd.sublist hsub, ?_⟩
  intro i hi
  have hig : i ∈ goodIdx s := hsub.subset hi
  obtain ⟨g, hg, rfl⟩ := List.mem_map.mp hig
  exact (hmem g hg).1

theorem runPipeline_forest (v : ValidInput) :
    acyclicEdges ((runPipeline v).edges.map (pairAt v)) = true ∧
    (runPipeline v).edges.Nodup ∧
    (runPipeline v).nodes.Nodup ∧
    ∀ i ∈ (runPipeline v).edges,
      i < v.edges.length ∧ (pairAt v i).1 ∈ (runPipeline v).nodes ∧
        (pairAt v i).2 ∈ (runPipeline v).nodes := by
  have hinv := growInv_runGrowth v
  have hsub0 : ((selectEdges v (runGrowth v)).map Prod.fst).Sublist (goodIdx (runGrowth v)) :=
    (selectEdges_sublist v (runGrowth v)).map Prod.fst
  have hpipe : runPipeline v =
      assemble v (runGrowth v) ((selectEdges v (runGrowth v)).map Prod.fst) := rfl
  cases hroot : v.root with
  | none =>
    have hasm : assemble v (runGrowth v) ((selectEdges v (runGrowth v)).map Prod.fst) =
        { nodes := (endpointsOf v ((selectEdges v (runGrowth v)).map Prod.fst) ++
              keptSingles v (runGrowth v)).dedup,
          edges := (selectEdges v (runGrowth v)).map Prod.fst } := by
      rw [assemble, hroot]
    rw [hpipe, hasm]
    obtain ⟨ha, hn, hb⟩ := sel_props hinv hsub0
    refine ⟨ha, hn, List.nodup_dedup _, ?_⟩
    intro i hi
    refine ⟨hb i hi, ?_, ?_⟩
    · exact List.mem_dedup.mpr (List.mem_append_left _ (endpointsOf_mem_fst hi))
    · exact List.mem_dedup.mpr (List.mem_append_left _ (endpointsOf_mem_snd hi))
  | some rt =>
    have hasm : assemble v (runGrowth v) ((selectEdges v (runGrowth v)).map Prod.fst) =
        { nodes := (rt :: endpointsOf v
              (rootFilter v rt ((selectEdges v (runGrowth v)).map Prod.fst))).dedup,
          edges := rootFilter v rt ((selectEdges v (runGrowth v)).map Prod.fst) } := by
      rw [assemble, hroot]
    rw [hpipe, hasm]
    have hkept : (rootFilter v rt ((selectEdges v (runGrowth v)).map Prod.fst)).Sublist
        ((selectEdges v (runGrowth v)).map Prod.fst) := List.filter_sublist _
    obtain ⟨ha, hn, hb⟩ := sel_props hinv (hkept.trans hsub0)
    refine ⟨ha, hn, List.nodup_dedup _, ?_⟩
    intro i hi
    refine ⟨hb i hi, ?_, ?_⟩
    · exact List.mem_dedup.mpr (List.mem_cons_of_mem _ (endpointsOf_mem_fst hi))
    · exact List.mem_dedup.mpr (List.mem_cons_of_mem _ (endpointsOf_mem_snd hi))

theorem runPipeline_rooted {v : ValidInput} {rt : Nat} (hroot : v.root = some rt) :
    rt ∈ (runPipeline v).nodes ∧
    ∀ x ∈ (runPipeline v).nodes,
      connB ((runPipeline v).edges.map (pairAt v)) rt x = true := by
  have hpipe : runPipeline v =
      assemble v (runGrowth v) ((selectEdges v (runGrowth v)).map Prod.fst) := rfl
  have hasm : assemble v (runGrowth v) ((selectEdges v (runGrowth v)).map Prod.fst) =
      { nodes := (rt :: endpointsOf v
            (rootFilter v rt ((selectEdges v (runGrowth v)).map Prod.fst))).dedup,
        edges := rootFilter v rt ((selectEdges v (runGrowth v)).map Prod.fst) } := by
    rw [assemble, hroot]
  rw [hpipe, hasm]
  constructor
  · exact List.mem_dedup.mpr (List.mem_cons_self _ _)
  · intro x hx
    rw [List.mem_dedup] at hx
    rcases List.mem_cons.mp hx with rfl | hx
    · simp [connB]
    · obtain ⟨i, hi, hx12⟩ := mem_endpointsOf hx
      rw [rootFilter, List.mem_filter, Bool.and_eq_true] at hi
      obtain ⟨hisel, hpred1, hpred2⟩ := hi
      have hconnSx :
          connB (((selectEdges v (runGrowth v)).map Prod.fst).map (pairAt v)) rt x = true := by
        rcases hx12 with rfl | rfl
        · exact hpred1
        · exact hpred2
      have hconn := connB_iff_conn.mp hconnSx
      have hfiltered := conn_rootFilter hconn
      have hmapfil : ((rootFilter v rt ((selectEdges v (runGrowth v)).map Prod.fst)).map
            (pairAt v)) =
          ((((selectEdges v (runGrowth v)).map Prod.fst).map (pairAt v)).filter fun p =>
            connB (((selectEdges v (runGrowth v)).map Prod.fst).map (pairAt v)) rt p.1 &&
              connB (((selectEdges v (runGrowth v)).map Prod.fst).map (pairAt v)) rt p.2) := by
        rw [rootFilter]
        exact map_filter_comp (pairAt v)
          (fun p =>
            connB (((selectEdges v (runGrowth v)).map Prod.fst).map (pairAt v)) rt p.1 &&
              connB (((selectEdges v (runGrowth v)).map Prod.fst).map (pairAt v)) rt p.2)
          ((selectEdges v (runGrowth v)).map Prod.fst)
      rw [hmapfil]
      exact connB_iff_conn.mpr hfiltered

/- ===================== Lemmas: validation ===================== -/

theorem scanCosts_none : ∀ (l : List (Int × Int × FV)) (k : Nat), scanCosts k l = none →
    ∀ (j : Nat) (u v : Int) (c : FV), l[j]? = some (u, v, c) →
      ∃ q, c = FV.fin q ∧ q.isNeg = false := by
  intro l
  induction l with
  | nil => intro k _ j u v c hj; simp at hj
  | cons e rest ih =>
    intro k h j u v c hj
    obtain ⟨u0, v0, c0⟩ := e
    cases c0 with
    | fin q =>
      simp only [scanCosts] at h
      by_cases hq : q.isNeg
      · rw [if_pos hq] at h; simp at h
      · rw [if_neg hq] at h
        cases j with
        | zero =>
          simp only [List.getElem?_cons_zero, Option.some.injEq, Prod.mk.injEq] at hj
          exact ⟨q, hj.2.2.symm, Bool.eq_false_iff.mpr hq⟩
        | succ j =>
          rw [List.getElem?_cons_succ] at hj
          exact ih _ h j u v c hj
    | nan => simp only [scanCosts] at h; simp at h
    | posInf => simp only [scanCosts] at h; simp at h
    | negInf => simp only [scanCosts] at h; simp at h

theorem scanPrizes_none : ∀ (l : List FV) (k : Nat), scanPrizes k l = none →
    ∀ (j : Nat) (p : FV), l[j]? = some p → ∃ q, p = FV.fin q ∧ q.isNeg = false := by
  intro l
  induction l with
  | nil => intro k _ j p hj; simp at hj
  | cons e rest ih =>
    intro k h j p hj
    cases e with
    | fin q =>
      simp only [scanPrizes] at h
      by_cases hq : q.isNeg
      · rw [if_pos hq] at h; simp at h
      · rw [if_neg hq] at h
        cases j with
        | zero =>
          simp only [List.getElem?_cons_zero, Option.some.injEq] at hj
          exact ⟨q, hj.symm, Bool.eq_false_iff.mpr hq⟩
        | succ j =>
          rw [List.getElem?_cons_succ] at hj
          exact ih _ h j p hj
    | nan => simp only [scanPrizes] at h; simp at h
    | posInf => simp only [scanPrizes] at h; simp at h
    | negInf => simp only [scanPrizes] at h; simp at h

theorem scanEndpoints_none (n : Nat) : ∀ (l : List (Int × Int × FV)) (k : Nat),
    scanEndpoints n k l = none →
    ∀ (j : Nat) (u v : Int) (c : FV), l[j]? = some (u, v, c) →
      (endpointOk n u && endpointOk n v) = true := by
  intro l
  induction l with
  | nil => intro k _ j u v c hj; simp at hj
  | cons e rest ih =>
    intro k h j u v c hj
    obtain ⟨u0, v0, c0⟩ := e
    simp only [scanEndpoints] at h
    by_cases hok : (endpointOk n u0 && endpointOk n v0) = true
    · rw [if_pos hok] at h
      cases j with
      | zero =>
        simp only [List.getElem?_cons_zero, Option.some.injEq, Prod.mk.injEq] at hj
        rw [← hj.1, ← hj.2.1]
        exact hok
      | succ j =>
        rw [List.getElem?_cons_succ] at hj
        exact ih _ h j u v c hj
    · rw [if_neg hok] at h; simp at h

theorem scanCosts_some : ∀ (l : List (Int × Int × FV)) (k : Nat) (e : ErrorKind),
    scanCosts k l = some e →
      (∃ (j : Nat) (u v : Int) (q : QV), l[j]? = some (u, v, FV.fin q) ∧ q.isNeg = true ∧
          e = .negativeCost (k + j)) ∨
      (∃ (j : Nat) (u v : Int) (c : FV), l[j]? = some (u, v, c) ∧ c.isFinite = false ∧
          e = .nonFinite (k + j)) := by
  intro l
  induction l with
  | nil => intro k e h; simp [scanCosts] at h
  | cons x rest ih =>
    intro k e h
    obtain ⟨u0, v0, c0⟩ := x
    cases c0 with
    | fin q =>
      simp only [scanCosts] at h
      by_cases hq : q.isNeg
      · rw [if_pos hq] at h
        cases h
        left
        exact ⟨0, u0, v0, q, by simp, hq, by simp⟩
      · rw [if_neg hq] at h
        rcases ih (k + 1) e h with ⟨j, u, v, q', hj, hq', he⟩ | ⟨j, u, v, c, hj, hc, he⟩
        · left
          refine ⟨j + 1, u, v, q', by simpa using hj, hq', ?_⟩
          rw [he]
          congr 1
          omega
        · right
          refine ⟨j + 1, u, v, c, by simpa using hj, hc, ?_⟩
          rw [he]
          congr 1
          omega
    | nan =>
      simp only [scanCosts] at h
      cases h
      right
      exact ⟨0, u0, v0, FV.nan, by simp, rfl, by simp⟩
    | posInf =>
      simp only [scanCosts] at h
      cases h
      right
      exact ⟨0, u0, v0, FV.posInf, by simp, rfl, by simp⟩
    | negInf =>
      simp only [scanCosts] at h
      cases h
      right
      exact ⟨0, u0, v0, FV.negInf, by simp, rfl, by simp⟩

theorem scanPrizes_some : ∀ (l : List FV) (k : Nat) (e : ErrorKind),
    scanPrizes k l = some e →
      (∃ (j : Nat) (q : QV), l[j]? = some (FV.fin q) ∧ q.isNeg = true ∧
          e = .negativePrize (k + j)) ∨
      (∃ (j : Nat) (p : FV), l[j]? = some p ∧ p.isFinite = false ∧
          e = .nonFinite (k + j)) := by
  intro l
  induction l with
  | nil => intro k e h; simp [scanPrizes] at h
  | cons x rest ih =>
    intro k e h
    cases x with
    | fin q =>
      simp only [scanPrizes] at h
      by_cases hq : q.isNeg
      · rw [if_pos hq] at h
        cases h
        left
        exact ⟨0, q, by simp, hq, by simp⟩
      · rw [if_neg hq] at h
        rcases ih (k + 1) e h with ⟨j, q', hj, hq', he⟩ | ⟨j, p, hj, hp, he⟩
        · left
          refine ⟨j + 1, q', by simpa using hj, hq', ?_⟩
          rw [he]
          congr 1
          omega
        · right
          refine ⟨j + 1, p, by simpa using hj, hp, ?_⟩
          rw [he]
          congr 1
          omega
    | nan =>
      simp only [scanPrizes] at h
      cases h
      right
      exact ⟨0, FV.nan, by simp, rfl, by simp⟩
    | posInf =>
      simp only [scanPrizes] at h
      cases h
      right
      exact ⟨0, FV.posInf, by simp, rfl, by simp⟩
    | negInf =>
      simp only [scanPrizes] at h
      cases h
      right
      exact ⟨0, FV.negInf, by simp, rfl, by simp⟩

theorem scanEndpoints_some (n : Nat) : ∀ (l : List (Int × Int × FV)) (k : Nat)
    (e : ErrorKind), scanEndpoints n k l = some e →
      ∃ (j : Nat) (u v : Int) (c : FV), l[j]? = some (u, v, c) ∧
        (endpointOk n u && endpointOk n v) = false ∧
        e = .edgeEndpointOutOfRange (k + j) := by
  intro l
  induction l with
  | nil => intro k e h; simp [scanEndpoints] at h
  | cons x rest ih =>
    intro k e h
    obtain ⟨u0, v0, c0⟩ := x
    simp only [scanEndpoints] at h
    by_cases hok : (endpointOk n u0 && endpointOk n v0) = true
    · rw [if_pos hok] at h
      obtain ⟨j, u, v, c, hj, hc, he⟩ := ih (k + 1) e h
      refine ⟨j + 1, u, v, c, by simpa using hj, hc, ?_⟩
      rw [he]
      congr 1
      omega
    · rw [if_neg hok] at h
      cases h
      exact ⟨0, u0, v0, c0, by simp, Bool.eq_false_iff.mpr hok, by simp⟩

theorem validate_error_matches {inp : PcstInput} {e : ErrorKind}
    (h : validate inp = .error e) : KindMatches inp e := by
  unfold validate at h
  cases hc : scanCosts 0 inp.edges with
  | some e0 =>
    rw [hc] at h
    simp only [Except.error.injEq] at h
    subst h
    rcases scanCosts_some _ _ _ hc with ⟨j, u, v, q, hj, hq, he⟩ | ⟨j, u, v, c, hj, hcf, he⟩
    · rw [he]
      simp only [Nat.zero_add]
      exact ⟨u, v, q, hj, hq⟩
    · rw [he]
      simp only [Nat.zero_add]
      exact Or.inl ⟨u, v, c, hj, hcf⟩
  | none =>
    rw [hc] at h
    cases hp : scanPrizes 0 inp.prizes with
    | some e0 =>
      rw [hp] at h
      simp only [Except.error.injEq] at h
      subst h
      rcases scanPrizes_some _ _ _ hp with ⟨j, q, hj, hq, he⟩ | ⟨j, p, hj, hpf, he⟩
      · rw [he]
        simp only [Nat.zero_add]
        exact ⟨q, hj, hq⟩
      · rw [he]
        simp only [Nat.zero_add]
        exact Or.inr ⟨p, hj, hpf⟩
    | none =>
      rw [hp] at h
      cases hep : scanEndpoints inp.prizes.length 0 inp.edges with
      | some e0 =>
        rw [hep] at h
        simp only [Except.error.injEq] at h
        subst h
        obtain ⟨j, u, v, c, hj, hcf, he⟩ := scanEndpoints_some _ _ _ _ hep
        rw [he]
        simp only [Nat.zero_add]
        exact ⟨u, v, c, hj, hcf⟩
      | none =>
        rw [hep] at h
        by_cases hr : inp.root = -1 ∨ (0 ≤ inp.root ∧ inp.root < (inp.prizes.length : Int))
        · rw [if_pos hr] at h
          by_cases hcf : inp.root ≠ -1 ∧ inp.target ≠ 0
          · rw [if_pos hcf] at h
            simp only [Except.error.injEq] at h
            subst h
            exact hcf
          · rw [if_neg hcf] at h
            simp at h
        · rw [if_neg hr] at h
          simp only [Except.error.injEq] at h
          subst h
          exact ⟨rfl, hr⟩

theorem validate_ok_facts {inp : PcstInput} {v : ValidInput} (h : validate inp = .ok v) :
    scanCosts 0 inp.edges = none ∧ scanPrizes 0 inp.prizes = none ∧
    scanEndpoints inp.prizes.length 0 inp.edges = none ∧
    (inp.root = -1 ∨ (0 ≤ inp.root ∧ inp.root < (inp.prizes.length : Int))) ∧
    ¬(inp.root ≠ -1 ∧ inp.target ≠ 0) := by
  unfold validate at h
  cases hc : scanCosts 0 inp.edges with
  | some e0 => rw [hc] at h; simp at h
  | none =>
    rw [hc] at h
    cases hp : scanPrizes 0 inp.prizes with
    | some e0 => rw [hp] at h; simp at h
    | none =>
      rw [hp] at h
      cases hep : scanEndpoints inp.prizes.length 0 inp.edges with
      | some e0 => rw [hep] at h; simp at h
      | none =>
        rw [hep] at h
        by_cases hr : inp.root = -1 ∨ (0 ≤ inp.root ∧ inp.root < (inp.prizes.length : Int))
        · rw [if_pos hr] at h
          by_cases hcf : inp.root ≠ -1 ∧ inp.target ≠ 0
          · rw [if_pos hcf] at h; simp at h
          · exact ⟨rfl, rfl, rfl, hr, hcf⟩
        · rw [if_neg hr] at h; simp at h

theorem c3invalid_validate_error {inp : PcstInput} (h : C3Invalid inp) :
    ∃ e, validate inp = .error e := by
  cases hv : validate inp with
  | error e => exact ⟨e, rfl⟩
  | ok v =>
    exfalso
    obtain ⟨h1, h2, h3, h4, _⟩ := validate_ok_facts hv
    rcases h with hcn | hcf | hpn | hpf | hroot | hep
    · obtain ⟨i, u, w, q, hj, hq⟩ := hcn
      obtain ⟨q', hq', hflag⟩ := scanCosts_none _ _ h1 i u w _ hj
      injection hq' with hqq
      rw [← hqq] at hflag
      rw [hq] at hflag
      cases hflag
    · obtain ⟨i, u, w, c, hj, hc⟩ := hcf
      obtain ⟨q', hq', _⟩ := scanCosts_none _ _ h1 i u w c hj
      rw [hq'] at hc
      simp [FV.isFinite] at hc
    · obtain ⟨i, q, hj, hq⟩ := hpn
      obtain ⟨q', hq', hflag⟩ := scanPrizes_none _ _ h2 i _ hj
      injection hq' with hqq
      rw [← hqq] at hflag
      rw [hq] at hflag
      cases hflag
    · obtain ⟨i, p, hj, hp⟩ := hpf
      obtain ⟨q', hq', _⟩ := scanPrizes_none _ _ h2 i p hj
      rw [hq'] at hp
      simp [FV.isFinite] at hp
    · exact hroot h4
    · obtain ⟨i, u, w, c, hj, hc⟩ := hep
      have := scanEndpoints_none _ _ _ h3 i u w c hj
      rw [this] at hc
      cases hc

/- ===================== Lemmas: pgr wrapper ===================== -/

theorem lookupId_append_single (t : String) (k : Nat) {s : String} (h : s ≠ t) :
    ∀ (m : List (String × Nat)), lookupId (m ++ [(t, k)]) s = lookupId m s := by
  intro m
  induction m with
  | nil =>
    show (if ((t, k).1 == s) then some (t, k).2 else lookupId [] s) = none
    rw [if_neg]
    · rfl
    · intro hh
      exact h (beq_iff_eq.mp hh).symm
  | cons a m ih =>
    show (if a.1 == s then some a.2 else lookupId (m ++ [(t, k)]) s) =
      (if a.1 == s then some a.2 else lookupId m s)
    by_cases ha : (a.1 == s) = true
    · rw [if_pos ha, if_pos ha]
    · rw [if_neg ha, if_neg ha, ih]

theorem lookupId_addNodeId_ne (m : List (String × Nat)) (t : String) {s : String}
    (h : s ≠ t) : lookupId (addNodeId m t).1 s = lookupId m s := by
  unfold addNodeId
  cases hl : lookupId m t with
  | some k => rfl
  | none => exact lookupId_append_single t m.length h m

theorem endpointIds_cons (r : EdgeRow) (rest : List EdgeRow) :
    endpointIds (r :: rest) = r.src :: r.tgt :: endpointIds rest := rfl

theorem lookupId_buildGraphAux : ∀ (rows : List EdgeRow) (m : List (String × Nat))
    (acc : List (Nat × Nat × FV)) {s : String}, s ∉ endpointIds rows →
    lookupId (buildGraphAux m acc rows).1 s = lookupId m s := by
  intro rows
  induction rows with
  | nil => intro m acc s _; rfl
  | cons r rest ih =>
    intro m acc s h
    rw [endpointIds_cons] at h
    simp only [List.mem_cons, not_or] at h
    obtain ⟨h1, h2, h3⟩ := h
    show lookupId (buildGraphAux (addNodeId (addNodeId m r.src).1 r.tgt).1 _ rest).1 s =
      lookupId m s
    rw [ih _ _ h3, lookupId_addNodeId_ne _ _ h2, lookupId_addNodeId_ne _ _ h1]

theorem lookupId_buildGraph_not_endpoint {rows : List EdgeRow} {s : String}
    (h : s ∉ endpointIds rows) : lookupId (buildGraph rows).1 s = none :=
  lookupId_buildGraphAux rows [] [] h

/- ===================== Claim theorems ===================== -/

/-- C1: for every valid input, the edge set returned by solve, interpreted
as a subgraph over the returned node set, is a forest: the returned edges,
scanned in order, each join two previously disconnected components (no
cycles), every returned edge is an input edge whose two endpoints are in
the returned node set, and the returned node and edge index lists are
duplicate-free. -/
theorem C1_result_is_forest (inp : PcstInput) (v : ValidInput) (r : SolveResult)
    (hv : validate inp = .ok v) (hr : pcst_solve inp = .ok r) :
    acyclicEdges (r.edges.map (pairAt v)) = true ∧
    r.edges.Nodup ∧ r.nodes.Nodup ∧
    ∀ i ∈ r.edges,
      i < v.edges.length ∧ (pairAt v i).1 ∈ r.nodes ∧ (pairAt v i).2 ∈ r.nodes := by
  have hrr : r = runPipeline v := by
    unfold pcst_solve at hr
    rw [hv] at hr
    exact (Except.ok.inj hr).symm
  rw [hrr]
  exact runPipeline_forest v

theorem C1_result_is_forest_witness :
    validate chainInp = .ok chainValid ∧
    pcst_solve chainInp = .ok chainResult ∧
    (acyclicEdges (chainResult.edges.map (pairAt chainValid)) = true ∧
      chainResult.edges.Nodup ∧ chainResult.nodes.Nodup ∧
      ∀ i ∈ chainResult.edges,
        i < chainValid.edges.length ∧ (pairAt chainValid i).1 ∈ chainResult.nodes ∧
          (pairAt chainValid i).2 ∈ chainResult.nodes) :=
  ⟨by decide, by decide,
    C1_result_is_forest chainInp chainValid chainResult (by decide) (by decide)⟩

/-- C2: for every valid input whose root is specified, the root is in the
returned node set and every returned node is connected to the root through
the returned edges. -/
theorem C2_rooted_connectivity (inp : PcstInput) (v : ValidInput) (r : SolveResult)
    (rt : Nat) (hv : validate inp = .ok v) (hrt : v.root = some rt)
    (hr : pcst_solve inp = .ok r) :
    rt ∈ r.nodes ∧ ∀ x ∈ r.nodes, connB (r.edges.map (pairAt v)) rt x = true := by
  have hrr : r = runPipeline v := by
    unfold pcst_solve at hr
    rw [hv] at hr
    exact (Except.ok.inj hr).symm
  rw [hrr]
  exact runPipeline_rooted hrt

theorem C2_rooted_connectivity_witness :
    validate chainRootedInp = .ok chainRootedValid ∧
    chainRootedValid.root = some 0 ∧
    pcst_solve chainRootedInp = .ok chainResult ∧
    (0 ∈ chainResult.nodes ∧
      ∀ x ∈ chainResult.nodes,
        connB (chainResult.edges.map (pairAt chainRootedValid)) 0 x = true) :=
  ⟨by decide, by decide, by decide,
    C2_rooted_connectivity chainRootedInp chainRootedValid chainResult 0
      (by decide) (by decide) (by decide)⟩

/-- C3: for every invalid input (a negative cost, a negative prize, a
non-finite cost or prize, an out-of-range root, or an edge endpoint outside
`[0, n)`), solve returns a structured error of the documented kind coming
from the eager validation (before growth), and on every input that passes
validation solve returns a result and never an error. -/
theorem C3_validation (inp : PcstInput) :
    (C3Invalid inp →
      ∃ e, validate inp = .error e ∧ pcst_solve inp = .error e ∧ KindMatches inp e) ∧
    ∀ v, validate inp = .ok v → pcst_solve inp = .ok (runPipeline v) := by
  constructor
  · intro h
    obtain ⟨e, he⟩ := c3invalid_validate_error h
    refine ⟨e, he, ?_, validate_error_matches he⟩
    unfold pcst_solve
    rw [he]
  · intro v hv
    unfold pcst_solve
    rw [hv]

theorem C3_validation_witness :
    (∃ e, validate negCostInp = .error e ∧ pcst_solve negCostInp = .error e ∧
      KindMatches negCostInp e) ∧
    pcst_solve chainInp = .ok (runPipeline chainValid) :=
  ⟨(C3_validation negCostInp).1
      (Or.inl ⟨0, 0, 1, { num := -3, den := 1 }, by decide, by decide⟩),
    (C3_validation chainInp).2 chainValid (by decide)⟩

/-- C4 (code bug): pcst_fast_pg hands the caller's costs array pointer
straight to the mutating core, so after the call the caller's buffer holds
the residual slacks, not the original costs; the pgr entry point keeps the
original costs (it passes a copy to the core). -/
theorem C4_pg_mutates_caller_costs :
    pgCallerCostsAfter mutArgs ≠ pgCallerCostsBefore mutArgs ∧
    pgrStoredCostsAfter rowsEx = [FV.fin (QV.ofInt 1)] :=
  ⟨by decide, rfl⟩

/-- C5: every call with a root specified and a non-zero
target_num_active_clusters is rejected with an error; the solve does not
proceed. -/
theorem C5_rooted_target_rejected (inp : PcstInput) (h1 : 0 ≤ inp.root)
    (h2 : inp.target ≠ 0) : ∃ e, pcst_solve inp = .error e := by
  cases hv : validate inp with
  | error e =>
    refine ⟨e, ?_⟩
    unfold pcst_solve
    rw [hv]
  | ok v =>
    exfalso
    apply (validate_ok_facts hv).2.2.2.2
    refine ⟨?_, h2⟩
    intro heq
    rw [heq] at h1
    exact absurd h1 (by decide)

theorem C5_rooted_target_rejected_witness :
    ∃ e, pcst_solve rootTargetInp = .error e :=
  C5_rooted_target_rejected rootTargetInp (by decide) (by decide)

/-- C6 counterexample: two failing calls whose in-scope diagnostic context
differs in every component (node count, edge count, root, cluster target,
pruning) surface the identical error, so the surfaced error cannot include
n, m, root, target_num_active_clusters or pruning. -/
theorem C6_context_not_included :
    pgHandleResult 2 1 (-1) 1 "gw"
        { success := false, errorMessage := "invariant violated",
          resultNodes := [], resultEdges := [] } =
      pgHandleResult 3 0 5 0 "none"
        { success := false, errorMessage := "invariant violated",
          resultNodes := [], resultEdges := [] } ∧
    (2 : Int) ≠ 3 :=
  ⟨rfl, by decide⟩

/-- C6 amended: whenever the core reports failure, pcst_fast_pg surfaces it
to the caller as the error "PCST algorithm failed: " followed by the core's
error message — the failure is never silently swallowed — but the report
contains only the core's message, not the n, m, root,
target_num_active_clusters, pruning context. -/
theorem C6_failure_surfaced (n m root numClusters : Int) (pruning : String)
    (res : PcstCResult) (h : res.success = false) :
    pgHandleResult n m root numClusters pruning res =
      .error ("PCST algorithm failed: " ++ res.errorMessage) := by
  unfold pgHandleResult
  rw [h]
  rfl

theorem C6_failure_surfaced_witness :
    pgHandleResult 2 1 (-1) 1 "gw"
        { success := false, errorMessage := "boom", resultNodes := [], resultEdges := [] } =
      .error ("PCST algorithm failed: " ++ "boom") :=
  C6_failure_surfaced 2 1 (-1) 1 "gw"
    { success := false, errorMessage := "boom", resultNodes := [], resultEdges := [] } rfl

/-- C7: solve is deterministic — identical inputs produce identical node
and edge sets (and the identical cost buffer); in this embedding the
solver consults nothing but its arguments. -/
theorem C7_deterministic (i1 i2 : PcstInput) (h : i1 = i2) :
    pcst_solve i1 = pcst_solve i2 ∧
    pcst_solve_costs_after i1 = pcst_solve_costs_after i2 := by
  rw [h]
  exact ⟨rfl, rfl⟩

theorem C7_deterministic_witness :
    pcst_solve chainInp = pcst_solve chainInp ∧
    pcst_solve_costs_after chainInp = pcst_solve_costs_after chainInp :=
  C7_deterministic chainInp chainInp rfl

/-- C8: in pcst_fast_pgr a NULL root and the text "-1" both decode to the
internal no-root index -1, the whole call behaves identically under the two
encodings, and any other root id that does not appear among the edge
endpoints is rejected with the documented error. -/
theorem C8_root_encoding (er : List EdgeRow) (nr : List NodeRow) (k : Nat)
    (p : Option String) (m : List (String × Nat)) (s : String)
    (hs : s ≠ "-1") (hmem : s ∉ endpointIds er) :
    mapRootIndex none m = .ok (-1) ∧
    mapRootIndex (some ("-1")) m = .ok (-1) ∧
    pcst_fast_pgr er nr none k p = pcst_fast_pgr er nr (some ("-1")) k p ∧
    (er ≠ [] → pcst_fast_pgr er nr (some s) k p =
      .error ("root node ID '" ++ s ++ "' not found in edges")) := by
  have hm1 : ∀ m2 : List (String × Nat), mapRootIndex (some ("-1")) m2 = .ok (-1) := by
    intro m2
    simp [mapRootIndex]
  refine ⟨rfl, hm1 m, ?_, ?_⟩
  · unfold pcst_fast_pgr pgrAfterEmptyCheck
    rw [hm1 (buildGraph er).1]
    rfl
  · intro hne
    have hef : er.isEmpty = false := by
      cases er
      · exact absurd rfl hne
      · rfl
    have hmr : mapRootIndex (some s) (buildGraph er).1 =
        .error ("root node ID '" ++ s ++ "' not found in edges") := by
      simp only [mapRootIndex]
      rw [if_neg hs, lookupId_buildGraph_not_endpoint hmem]
    unfold pcst_fast_pgr pgrAfterEmptyCheck
    rw [hef, hmr]
    rfl

theorem C8_root_encoding_witness :
    mapRootIndex none [] = .ok (-1) ∧
    mapRootIndex (some ("-1")) [] = .ok (-1) ∧
    pcst_fast_pgr rowsEx nodeRowsEx none 1 (some ("simple")) =
      pcst_fast_pgr rowsEx nodeRowsEx (some ("-1")) 1 (some ("simple")) ∧
    (rowsEx ≠ [] →
      pcst_fast_pgr rowsEx nodeRowsEx (some ("zzz")) 1 (some ("simple")) =
        .error ("root node ID '" ++ "zzz" ++ "' not found in edges")) :=
  C8_root_encoding rowsEx nodeRowsEx 1 (some ("simple")) [] "zzz" (by decide) (by decide)

/-- C9: an unrecognized pruning string raises no error in either entry
point: pcst_fast_pg silently falls back to gw (method 2) while
pcst_fast_pgr silently falls back to simple (method 1), and the pcst_fast_pg
call still succeeds. -/
theorem C9_pruning_fallback (s : String) (h1 : s ≠ "none") (h2 : s ≠ "simple")
    (h3 : s ≠ "gw") (h4 : s ≠ "strong") :
    pruningMethodPg s = 2 ∧ pruningMethodPgrStr s = 1 ∧
    pcst_fast_pg
        { edges := [], prizes := [FV.fin (QV.ofInt 1)], costs := [], root := -1,
          numClusters := 1, pruning := s } =
      .ok { nodes := [0], edges := [] } := by
  have hpg : pruningMethodPg s = 2 := by
    unfold pruningMethodPg
    rw [if_neg h1, if_neg h2, if_neg h3, if_neg h4]
  have hpgr : pruningMethodPgrStr s = 1 := by
    unfold pruningMethodPgrStr
    rw [if_neg h1, if_neg h2, if_neg h3, if_neg h4]
  refine ⟨hpg, hpgr, ?_⟩
  have hin : pgInput
      { edges := [], prizes := [FV.fin (QV.ofInt 1)], costs := [], root := -1,
        numClusters := 1, pruning := s } =
      { edges := [], prizes := [FV.fin (QV.ofInt 1)], root := -1, target := 1,
        pruning := 2 } := by
    unfold pgInput
    rw [hpg]
    rfl
  unfold pcst_fast_pg
  rw [hin]
  decide

theorem C9_pruning_fallback_witness :
    pruningMethodPg "foo" = 2 ∧ pruningMethodPgrStr "foo" = 1 ∧
    pcst_fast_pg
        { edges := [], prizes := [FV.fin (QV.ofInt 1)], costs := [], root := -1,
          numClusters := 1, pruning := "foo" } =
      .ok { nodes := [0], edges := [] } :=
  C9_pruning_fallback "foo" (by decide) (by decide) (by decide) (by decide)

/-- C10: an edges query returning zero rows makes pcst_fast_pgr raise the
error "edges query returned no rows" instead of returning an empty result,
while a nodes query returning zero rows is accepted (the call proceeds past
the empty-edges check) and leaves every node's prize at 0. -/
theorem C10_empty_query_handling (nr : List NodeRow) (rootId : Option String) (k : Nat)
    (p : Option String) (er : List EdgeRow) (hne : er ≠ []) :
    pcst_fast_pgr [] nr rootId k p = .error ("edges query returned no rows") ∧
    pcst_fast_pgr er nr rootId k p = pgrAfterEmptyCheck er nr rootId k p ∧
    (pgrCoreInput er [] (-1) k p).prizes =
      List.replicate (buildGraph er).1.length (FV.fin (QV.ofInt 0)) := by
  have hef : er.isEmpty = false := by
    cases er
    · exact absurd rfl hne
    · rfl
  refine ⟨rfl, ?_, rfl⟩
  unfold pcst_fast_pgr
  rw [hef]
  rfl

theorem C10_empty_query_handling_witness :
    pcst_fast_pgr [] nodeRowsEx none 1 (some ("simple")) =
      .error ("edges query returned no rows") ∧
    pcst_fast_pgr rowsEx nodeRowsEx none 1 (some ("simple")) =
      pgrAfterEmptyCheck rowsEx nodeRowsEx none 1 (some ("simple")) ∧
    (pgrCoreInput rowsEx [] (-1) 1 (some ("simple"))).prizes =
      List.replicate (buildGraph rowsEx).1.length (FV.fin (QV.ofInt 0)) :=
  C10_empty_query_handling nodeRowsEx none 1 (some ("simple")) rowsEx (by decide)

end PcstFast
